import Mathlib

/-!
Verification of the AAGNet feature-recognition pipeline implemented in
`supabase/functions/python-aagnet-inference/index.py`.

The development shallowly embeds the deterministic parts of the pipeline:
the assembly of the pairwise instance-affinity matrix (`AAGNetSegmentor.forward`,
lines 128-148), the sigmoid-and-0.5 thresholding (`handler`, lines 547-549),
the greedy instance clusterer (`handler`, lines 554-567), the feature assembler
(`handler`, lines 569-628), the machining-parameter buckets
(`generate_machining_params`, lines 462-495), the response construction
(`handler`, lines 630-657) and the error path (lines 659-672).

Floating-point values are modelled by rationals; the arithmetic performed by the
code (sums, divisions, comparisons) is embedded exactly.  Numpy index errors
that cannot occur on the shapes the pipeline produces are totalised with `getD`
defaults, keeping every definition executable.
-/

set_option autoImplicit false

namespace AAGNet

/-- Ternary of rationals modelling a 3-d point (`[x, y, z]` in the Python code). -/
abbrev Vec3 := ℚ × ℚ × ℚ

/-! ### The greedy instance clusterer (`handler`, lines 554-567)

```python
proposals = set()
used_flags = np.zeros(adj.shape[0], dtype=np.bool8)
eps = 1e-6
for row_idx, row in enumerate(adj):
    if used_flags[row_idx] or np.sum(row) <= eps:
        continue
    proposal = set()
    for col_idx, item in enumerate(row):
        if not used_flags[col_idx] and item:
            proposal.add(col_idx)
            used_flags[col_idx] = True
    if proposal:
        proposals.add(frozenset(proposal))
```

Rows of the binary matrix hold the `int32` values 0/1, modelled by `Bool`;
`np.sum(row) <= 1e-6` holds exactly when every entry of the row is 0.  A
proposal is modelled by the list of its member columns in increasing column
order (the order they are inserted); the Python `set` of `frozenset`s holds
exactly the same collection, since disjoint non-empty sets are pairwise
distinct.  `used_flags[col_idx]` is read as `getD _ false`: for the square
matrices the pipeline produces every column index is in range. -/

/-- Inner column scan of one row: collects the columns `c` with `row[c]` true and
`used[c]` false, marking each in `used`, in increasing column order.  Returns
the proposal together with the updated `used` flags. -/
def scanRow : List Bool → Nat → List Bool → List Nat × List Bool
  | used, _, [] => ([], used)
  | used, c, item :: rest =>
    if item && !(used.getD c false) then
      let res := scanRow (used.set c true) (c + 1) rest
      (c :: res.1, res.2)
    else
      scanRow used (c + 1) rest

/-- Outer row loop of the clusterer: skips a row whose index is already used or
whose entries are all false, otherwise scans it and emits the resulting
proposal when non-empty. -/
def clusterLoop : List Bool → Nat → List (List Bool) → List (List Nat)
  | _, _, [] => []
  | used, r, row :: rest =>
    if used.getD r false || row.all (fun b => !b) then
      clusterLoop used (r + 1) rest
    else
      if (scanRow used 0 row).1.isEmpty then
        clusterLoop (scanRow used 0 row).2 (r + 1) rest
      else
        (scanRow used 0 row).1 :: clusterLoop (scanRow used 0 row).2 (r + 1) rest

/-- Whole clustering run over a binary affinity matrix given as its list of
rows; `used_flags` starts as `adj.shape[0]` falses. -/
def clusterProposals (adj : List (List Bool)) : List (List Nat) :=
  clusterLoop (List.replicate adj.length false) 0 adj

/-! ### Vector sums, `np.argmax` and `np.max` over the class axis -/

/-- Elementwise sum of two logit vectors (`numpy` array addition; the rows the
pipeline adds all have length 25). -/
def vecAdd (u v : List ℚ) : List ℚ := List.zipWith (· + ·) u v

/-- Python `sum` over a list of logit vectors: the integer seed 0 plus the first
array is that array, after which `+` accumulates elementwise. -/
def vecSum : List (List ℚ) → List ℚ
  | [] => []
  | v :: rest => rest.foldl vecAdd v

/-- Maximum entry of a logit vector (`np.max`; the vectors taken are non-empty). -/
def listMax : List ℚ → ℚ
  | [] => 0
  | x :: rest => if rest.isEmpty then x else max x (listMax rest)

/-- Index of the first maximal entry of a logit vector (`np.argmax` returns the
first index attaining the maximum). -/
def argmax : List ℚ → Nat
  | [] => 0
  | x :: rest => if rest.isEmpty then 0 else if listMax rest ≤ x then 0 else argmax rest + 1

/-- Summed per-class segmentation logits of a proposal:
`sum(face_logits[face] for face in instance_list)` (`handler`, line 582).
Out-of-range faces are totalised with a 25-entry zero row. -/
def sumLogitsFor (faceLogits : List (List ℚ)) (inst : List Nat) : List ℚ :=
  vecSum (inst.map (fun f => faceLogits.getD f (List.replicate 25 0)))

/-! ### The canonical class list and machining parameters -/

/-- Exact 25-entry class list of the trained model (`handler`, lines 571-578);
index 24 (`'stock'`) is the background class. -/
def feat_names : List String :=
  ["chamfer", "through_hole", "triangular_passage", "rectangular_passage", "6sides_passage",
   "triangular_through_slot", "rectangular_through_slot", "circular_through_slot",
   "rectangular_through_step", "2sides_through_step", "slanted_through_step", "Oring", "blind_hole",
   "triangular_pocket", "rectangular_pocket", "6sides_pocket", "circular_end_pocket",
   "rectangular_blind_slot", "v_circular_end_blind_slot", "h_circular_end_blind_slot",
   "triangular_blind_step", "circular_blind_step", "rectangular_blind_step", "round", "stock"]

/-- Machining-parameter record; Python returns dicts whose optional keys
(`plunge_rate`, `step_over`, `step_down`) are present only in some buckets,
modelled with `Option`. -/
structure MachiningParams where
  tool_type : String
  tool_diameter : ℚ
  speed : ℚ
  feed_rate : ℚ
  plunge_rate : Option ℚ
  step_over : Option ℚ
  step_down : Option ℚ
  deriving DecidableEq, Repr

/-- DEFAULT bucket of `generate_machining_params` (lines 489-495). -/
def defaultMachining (dimension : ℚ) : MachiningParams :=
  { tool_type := "end_mill"
    tool_diameter := dimension * 0.5
    speed := 1000
    feed_rate := 0.1
    plunge_rate := none
    step_over := none
    step_down := none }

/-- Translation of `generate_machining_params` (lines 462-495): exact string
comparison against `'hole'`, `'pocket'`, `'slot'`, otherwise the DEFAULT
bucket. -/
def generate_machining_params (feature_type : String) (dimension : ℚ) : MachiningParams :=
  if feature_type = "hole" then
    { tool_type := "drill"
      tool_diameter := dimension * 0.9
      speed := 1200
      feed_rate := 0.1
      plunge_rate := some 0.05
      step_over := none
      step_down := none }
  else if feature_type = "pocket" then
    { tool_type := "end_mill"
      tool_diameter := dimension * 0.3
      speed := 800
      feed_rate := 0.2
      plunge_rate := none
      step_over := some 0.6
      step_down := some 0.5 }
  else if feature_type = "slot" then
    { tool_type := "end_mill"
      tool_diameter := dimension * 0.8
      speed := 1000
      feed_rate := 0.15
      plunge_rate := none
      step_over := none
      step_down := some 0.3 }
  else
    defaultMachining dimension

/-! ### Meshes and assembled features -/

/-- Geometry the assembler reads: `mesh['vertices']` (points) and
`mesh['faces']` (per-face vertex index lists). -/
structure Mesh where
  vertices : List Vec3
  faces : List (List Nat)
  deriving DecidableEq, Repr

/-- Python `'hole' in inst_name`: `pat` occurs in `s` as a contiguous substring. -/
def beginsWith : List Char → List Char → Bool
  | [], _ => true
  | _ :: _, [] => false
  | p :: ps, c :: cs => p == c && beginsWith ps cs

/-- Contiguous-substring occurrence over character lists. -/
def occursIn (pat : List Char) : List Char → Bool
  | [] => beginsWith pat []
  | c :: cs => beginsWith pat (c :: cs) || occursIn pat cs

/-- Python `'hole' in inst_name` on strings. -/
def containsHole (s : String) : Bool := occursIn "hole".toList s.toList

/-- Dimensions dict of an emitted feature (`handler`, lines 613-618). -/
structure Dimensions where
  diameter : Option ℚ
  width : ℚ
  height : ℚ
  depth : ℚ
  deriving DecidableEq, Repr

/-- One emitted machining feature (`handler`, lines 608-624). -/
structure Feature where
  id : String
  type : String
  confidence : ℚ
  position : Vec3
  dimensions : Dimensions
  normal : Vec3
  machining_params : MachiningParams
  model_prediction : Bool
  faces : List Nat
  bottoms : List Nat
  deriving DecidableEq, Repr

/-- Centroid of the first three vertices of face `i`
(`position = [(v1[k]+v2[k]+v3[k])/3.0 for k]`, lines 598-601); vertex lookups
are totalised with `getD`. -/
def faceCentroid (mesh : Mesh) (i : Nat) : Vec3 :=
  let face := mesh.faces.getD i []
  let v1 := mesh.vertices.getD (face.getD 0 0) (0, 0, 0)
  let v2 := mesh.vertices.getD (face.getD 1 0) (0, 0, 0)
  let v3 := mesh.vertices.getD (face.getD 2 0) (0, 0, 0)
  ((v1.1 + v2.1 + v3.1) / 3, (v1.2.1 + v2.2.1 + v3.2.1) / 3, (v1.2.2 + v2.2.2 + v3.2.2) / 3)

/-- Body of the `for instance in proposals` loop (`handler`, lines 580-627) for
one proposal: `none` when the proposal is discarded (background argmax, or one
of the geometric guards fails), otherwise the emitted feature.  `dims` is the
triple of `np.random.uniform` draws of lines 604-606 and `count` is
`len(detected_features)` at the time the feature is appended. -/
def processProposal (mesh : Mesh) (faceLogits : List (List ℚ)) (bottomLogits : List Bool)
    (dims : Vec3) (count : Nat) (inst : List Nat) : Option Feature :=
  let sumInstLogit := sumLogitsFor faceLogits inst
  let instLogit := argmax sumInstLogit
  if instLogit = 24 then
    none
  else
    let instName := feat_names.getD instLogit ""
    let bottoms := inst.filter (fun f => bottomLogits.getD f false)
    let confidence := listMax sumInstLogit / (inst.length : ℚ)
    match inst with
    | [] => none
    | faceIdx :: _ =>
      if faceIdx < mesh.vertices.length then
        if faceIdx < mesh.faces.length then
          if 3 ≤ (mesh.faces.getD faceIdx []).length then
            let width := dims.1
            let height := dims.2.1
            let depth := dims.2.2
            some
              { id := "aagnet_feature_" ++ toString count
                type := instName
                confidence := confidence
                position := faceCentroid mesh faceIdx
                dimensions :=
                  { diameter := if containsHole instName then some width else none
                    width := width
                    height := height
                    depth := depth }
                normal := (0, 0, 1)
                machining_params := generate_machining_params instName width
                model_prediction := true
                faces := inst
                bottoms := bottoms }
          else none
        else none
      else none

/-- Loop of `handler` lines 580-627 over all proposals, threading the count of
features detected so far (which indexes both the feature id and the random
dimension draws). -/
def assembleLoop (mesh : Mesh) (faceLogits : List (List ℚ)) (bottomLogits : List Bool)
    (randDims : Nat → Vec3) : List (List Nat) → Nat → List Feature
  | [], _ => []
  | inst :: rest, count =>
    match processProposal mesh faceLogits bottomLogits (randDims count) count inst with
    | some f => f :: assembleLoop mesh faceLogits bottomLogits randDims rest (count + 1)
    | none => assembleLoop mesh faceLogits bottomLogits randDims rest count

/-- All features assembled from a clustering run's proposals. -/
def assembleFeatures (mesh : Mesh) (faceLogits : List (List ℚ)) (bottomLogits : List Bool)
    (randDims : Nat → Vec3) (props : List (List Nat)) : List Feature :=
  assembleLoop mesh faceLogits bottomLogits randDims props 0

/-! ### The instance-affinity matrix and its thresholding -/

/-- Assembled instance matrix of `AAGNetSegmentor.forward` (lines 139-146):
entry `(i, j)` with `i < j` and its mirror both hold the pairwise logit of the
unordered pair; the diagonal is never written and keeps its `torch.zeros`
value 0.  `pairLogit i j` (for `i < j`) stands for `inst_out[idx, 0]` of the
pair `(i, j)`. -/
def instMatrix (pairLogit : Nat → Nat → ℚ) (i j : Nat) : ℚ :=
  if i < j then pairLogit i j
  else if j < i then pairLogit j i
  else 0

/-- Binarization `sigmoid(x) > 0.5` of `handler` line 548.  The sigmoid is
strictly increasing with `sigmoid 0 = 1/2`, so over the rationals the test is
exactly `0 < x`; the (irrational-valued) sigmoid itself is not modelled. -/
def sigmoidAboveHalf (x : ℚ) : Bool := decide (0 < x)

/-- Thresholded adjacency entry consumed by the clusterer. -/
def threshAdj (pairLogit : Nat → Nat → ℚ) (i j : Nat) : Bool :=
  sigmoidAboveHalf (instMatrix pairLogit i j)

/-- Whole `N x N` thresholded adjacency matrix as a list of rows
(`adj = (inst_matrix.sigmoid() > 0.5)`, lines 547-548). -/
def adjacencyMatrix (pairLogit : Nat → Nat → ℚ) (n : Nat) : List (List Bool) :=
  (List.range n).map (fun i => (List.range n).map (fun j => threshAdj pairLogit i j))

/-! ### Response assembly and the error path -/

/-- Result payload assembled at `handler` lines 631-647. -/
structure AnalysisResult where
  analysis_id : String
  status : String
  features : List Feature
  model_type : String
  inference_engine : String
  total_faces : Nat
  detected_features : Nat
  processing_time : String
  total_features : Nat
  feature_types : List String
  average_confidence : ℚ
  deriving Repr

/-- Success payload of `handler` lines 631-647; `feature_types` is
`list(set(...))` (duplicate removal) and `average_confidence` is `np.mean` of
confidences, 0 when no feature was detected. -/
def buildResult (analysisId : String) (features : List Feature) (totalFaces : Nat) :
    AnalysisResult :=
  { analysis_id := analysisId
    status := "completed"
    features := features
    model_type := "AAGNet"
    inference_engine := "PyTorch"
    total_faces := totalFaces
    detected_features := features.length
    processing_time := "real-time"
    total_features := features.length
    feature_types := (features.map (fun f => f.type)).eraseDups
    average_confidence :=
      if features.isEmpty then 0
      else (features.map (fun f => f.confidence)).sum / (features.length : ℚ) }

/-- JSON values, to state what keys a response body carries. -/
inductive Json where
  | str (s : String)
  | num (q : ℚ)
  | bool (b : Bool)
  | null
  | arr (l : List Json)
  | obj (l : List (String × Json))

/-- Top-level keys of a JSON object. -/
def jsonKeys : Json → List String
  | .obj kvs => kvs.map Prod.fst
  | _ => []

/-- Serialized 3-vector. -/
def vec3Json (v : Vec3) : Json := .arr [.num v.1, .num v.2.1, .num v.2.2]

/-- Serialized dimensions dict (`None` becomes JSON null). -/
def dimensionsJson (d : Dimensions) : Json :=
  .obj [("diameter", match d.diameter with | some q => Json.num q | none => Json.null),
        ("width", .num d.width), ("height", .num d.height), ("depth", .num d.depth)]

/-- Serialized machining-parameter dict; optional keys are present only when
their bucket sets them. -/
def machiningJson (p : MachiningParams) : Json :=
  .obj ([("tool_type", Json.str p.tool_type), ("tool_diameter", Json.num p.tool_diameter),
         ("speed", Json.num p.speed), ("feed_rate", Json.num p.feed_rate)]
    ++ (match p.plunge_rate with | some q => [("plunge_rate", Json.num q)] | none => [])
    ++ (match p.step_over with | some q => [("step_over", Json.num q)] | none => [])
    ++ (match p.step_down with | some q => [("step_down", Json.num q)] | none => []))

/-- Serialized feature dict (`handler`, lines 608-624). -/
def featureJson (f : Feature) : Json :=
  .obj [("id", .str f.id), ("type", .str f.type), ("confidence", .num f.confidence),
        ("position", vec3Json f.position), ("dimensions", dimensionsJson f.dimensions),
        ("normal", vec3Json f.normal), ("machining_params", machiningJson f.machining_params),
        ("model_prediction", .bool f.model_prediction),
        ("faces", .arr (f.faces.map (fun k => Json.num k))),
        ("bottoms", .arr (f.bottoms.map (fun k => Json.num k)))]

/-- Serialized success payload (`handler`, lines 631-647). -/
def resultJson (r : AnalysisResult) : Json :=
  .obj [("analysis_id", .str r.analysis_id), ("status", .str r.status),
        ("features", .arr (r.features.map featureJson)),
        ("metadata", .obj
          [("model_type", .str r.model_type), ("inference_engine", .str r.inference_engine),
           ("total_faces", .num r.total_faces), ("detected_features", .num r.detected_features),
           ("processing_time", .str r.processing_time)]),
        ("statistics", .obj
          [("total_features", .num r.total_features),
           ("feature_types", .arr (r.feature_types.map Json.str)),
           ("average_confidence", .num r.average_confidence)])]

/-- HTTP-ish response record returned by `handler`. -/
structure Response where
  statusCode : Nat
  headers : List (String × String)
  body : Json

/-- CORS headers attached to every response (lines 651-655 and 663-667). -/
def corsHeaders : List (String × String) :=
  [("Content-Type", "application/json"),
   ("Access-Control-Allow-Origin", "*"),
   ("Access-Control-Allow-Headers", "authorization, x-client-info, apikey, content-type")]

/-- Error body of the `except` branch (lines 668-671). -/
def errorBody (e : String) : Json :=
  .obj [("error", Json.str e), ("status", Json.str "error")]

/-- Sequential fallible pipeline inside the `try` block of `handler`: request
parsing, model loading, STEP parsing/extraction, encoding/inference, and
clustering/assembly, each of which may raise; `>>=` propagates the first
exception. -/
def runPipeline {α β γ δ : Type}
    (parseRequest : Except String α)
    (loadModel : α → Except String β)
    (extractGeometry : β → Except String γ)
    (encodeInfer : γ → Except String δ)
    (clusterAssemble : δ → Except String AnalysisResult) : Except String AnalysisResult :=
  parseRequest >>= loadModel >>= extractGeometry >>= encodeInfer >>= clusterAssemble

/-- The `try/except` envelope of `handler` (lines 497-672): a successful run is
serialized with status 200, any exception is caught and serialized as
`{'error': str(e), 'status': 'error'}` with status 500. -/
def handlerModel (run : Except String AnalysisResult) : Response :=
  match run with
  | .ok result => { statusCode := 200, headers := corsHeaders, body := resultJson result }
  | .error e => { statusCode := 500, headers := corsHeaders, body := errorBody e }

/-! ### List helper lemmas for the used-flag array -/

/-- Reading a used flag out of range yields `false` (unused). -/
theorem getD_false_of_le {l : List Bool} {i : Nat} (h : l.length ≤ i) :
    l.getD i false = false :=
  List.getD_eq_default l false h

/-- A flag that reads `true` is in range. -/
theorem lt_of_getD_true {l : List Bool} {i : Nat} (h : l.getD i false = true) :
    i < l.length := by
  by_contra hge
  rw [getD_false_of_le (Nat.le_of_not_lt hge)] at h
  exact Bool.false_ne_true h

/-- Setting position `i` does not change reads at `j ≠ i`. -/
theorem getD_set_ne {l : List Bool} {i j : Nat} (b : Bool) (h : i ≠ j) :
    (l.set i b).getD j false = l.getD j false := by
  induction l generalizing i j with
  | nil => rfl
  | cons a t ih =>
    cases i with
    | zero => cases j with
      | zero => exact absurd rfl h
      | succ m => rfl
    | succ n => cases j with
      | zero => rfl
      | succ m =>
        show (t.set n b).getD m false = t.getD m false
        exact ih (fun hnm => h (by rw [hnm]))

/-- Setting an in-range position is read back. -/
theorem getD_set_self {l : List Bool} {i : Nat} (b : Bool) (h : i < l.length) :
    (l.set i b).getD i false = b := by
  induction l generalizing i with
  | nil => exact absurd h (by simp)
  | cons a t ih =>
    cases i with
    | zero => rfl
    | succ n =>
      show (t.set n b).getD n false = b
      exact ih (Nat.lt_of_succ_lt_succ h)

/-- A flag already `true` stays `true` after any set-to-`true`. -/
theorem getD_set_true_of_true {l : List Bool} {i c : Nat}
    (h : l.getD i false = true) : (l.set c true).getD i false = true := by
  rcases Nat.decEq c i with hci | hci
  · rw [getD_set_ne true hci]; exact h
  · subst hci
    exact getD_set_self true (lt_of_getD_true h)

/-! ### Invariants of the inner column scan -/

/-- The scan does not change the number of flags. -/
theorem scanRow_length (used : List Bool) (c : Nat) (row : List Bool) :
    (scanRow used c row).2.length = used.length := by
  induction row generalizing used c with
  | nil => rfl
  | cons item rest ih =>
    rw [scanRow]
    split
    · simpa [List.length_set] using ih (used.set c true) (c + 1)
    · exact ih used (c + 1)

/-- Flags only ever go from `false` to `true` during a scan. -/
theorem scanRow_mono {used : List Bool} {c i : Nat} {row : List Bool}
    (h : used.getD i false = true) : (scanRow used c row).2.getD i false = true := by
  induction row generalizing used c with
  | nil => exact h
  | cons item rest ih =>
    rw [scanRow]
    split
    · exact ih (getD_set_true_of_true h)
    · exact ih h

/-- Members of the scanned proposal are at least the starting column. -/
theorem scanRow_mem_ge {used : List Bool} {c x : Nat} {row : List Bool}
    (h : x ∈ (scanRow used c row).1) : c ≤ x := by
  induction row generalizing used c with
  | nil => simp [scanRow] at h
  | cons item rest ih =>
    rw [scanRow] at h
    split at h
    · rcases List.mem_cons.mp h with rfl | hmem
      · exact Nat.le_refl x
      · exact Nat.le_of_succ_le (ih hmem)
    · exact Nat.le_of_succ_le (ih h)

/-- Members of the scanned proposal lie below `c + row.length`. -/
theorem scanRow_mem_lt {used : List Bool} {c x : Nat} {row : List Bool}
    (h : x ∈ (scanRow used c row).1) : x < c + row.length := by
  induction row generalizing used c with
  | nil => simp [scanRow] at h
  | cons item rest ih =>
    rw [scanRow] at h
    simp only [List.length_cons]
    split at h
    · rcases List.mem_cons.mp h with rfl | hmem
      · omega
      · have := ih hmem; omega
    · have := ih h; omega

/-- Every member of the scanned proposal was unused when the scan started. -/
theorem scanRow_mem_not_used {used : List Bool} {c x : Nat} {row : List Bool}
    (h : x ∈ (scanRow used c row).1) : used.getD x false = false := by
  induction row generalizing used c with
  | nil => simp [scanRow] at h
  | cons item rest ih =>
    rw [scanRow] at h
    split at h <;> rename_i hcond
    · simp only [Bool.and_eq_true] at hcond
      rcases List.mem_cons.mp h with rfl | hmem
      · have h2 := hcond.2
        cases hgd : used.getD x false
        · rfl
        · rw [hgd] at h2; exact absurd h2 (by simp)
      · have hge := scanRow_mem_ge hmem
        have hne : c ≠ x := by omega
        have hr := ih hmem
        rw [getD_set_ne true hne] at hr
        exact hr
    · exact ih h

/-- Every member of the scanned proposal is marked used afterwards, provided it
indexes into the flag array. -/
theorem scanRow_mem_used_after {used : List Bool} {c x : Nat} {row : List Bool}
    (h : x ∈ (scanRow used c row).1) (hx : x < used.length) :
    (scanRow used c row).2.getD x false = true := by
  induction row generalizing used c with
  | nil => simp [scanRow] at h
  | cons item rest ih =>
    rw [scanRow]
    rw [scanRow] at h
    split at h <;> rename_i hcond
    · rw [if_pos hcond]
      rcases List.mem_cons.mp h with rfl | hmem
      · exact scanRow_mono (getD_set_self true hx)
      · exact ih hmem (by simpa [List.length_set] using hx)
    · rw [if_neg hcond]
      exact ih h hx

/-- The scanned proposal has no duplicate members. -/
theorem scanRow_nodup (used : List Bool) (c : Nat) (row : List Bool) :
    (scanRow used c row).1.Nodup := by
  induction row generalizing used c with
  | nil => simp [scanRow]
  | cons item rest ih =>
    rw [scanRow]
    split
    · refine List.nodup_cons.mpr ⟨fun hmem => ?_, ih _ _⟩
      have := scanRow_mem_ge hmem
      omega
    · exact ih _ _

/-! ### Invariants of the outer row loop -/

/-- Every emitted proposal is non-empty. -/
theorem clusterLoop_ne_nil {used : List Bool} {r : Nat} {rows : List (List Bool)}
    {p : List Nat} (h : p ∈ clusterLoop used r rows) : p ≠ [] := by
  induction rows generalizing used r with
  | nil => simp [clusterLoop] at h
  | cons row rest ih =>
    rw [clusterLoop] at h
    split at h
    · exact ih h
    · split at h <;> rename_i hemp
      · exact ih h
      · rcases List.mem_cons.mp h with rfl | hmem
        · simpa [List.isEmpty_iff] using hemp
        · exact ih hmem

/-- Every emitted proposal has no duplicate members. -/
theorem clusterLoop_nodup {used : List Bool} {r : Nat} {rows : List (List Bool)}
    {p : List Nat} (h : p ∈ clusterLoop used r rows) : p.Nodup := by
  induction rows generalizing used r with
  | nil => simp [clusterLoop] at h
  | cons row rest ih =>
    rw [clusterLoop] at h
    split at h
    · exact ih h
    · split at h
      · exact ih h
      · rcases List.mem_cons.mp h with rfl | hmem
        · exact scanRow_nodup used 0 row
        · exact ih hmem

/-- Members of proposals emitted later were still unused at the current state. -/
theorem clusterLoop_mem_not_used {used : List Bool} {r : Nat} {rows : List (List Bool)}
    {p : List Nat} {x : Nat} (hp : p ∈ clusterLoop used r rows) (hx : x ∈ p) :
    used.getD x false = false := by
  induction rows generalizing used r with
  | nil => simp [clusterLoop] at hp
  | cons row rest ih =>
    rw [clusterLoop] at hp
    split at hp
    · exact ih hp
    · split at hp
      · have later := ih hp
        cases hgd : used.getD x false
        · rfl
        · rw [scanRow_mono hgd] at later
          exact absurd later (by simp)
      · rcases List.mem_cons.mp hp with rfl | hmem
        · exact scanRow_mem_not_used hx
        · have later := ih hmem
          cases hgd : used.getD x false
          · rfl
          · rw [scanRow_mono hgd] at later
            exact absurd later (by simp)

/-- Disjointness of the emitted proposals: once a face is put into a proposal
its flag is set, is never cleared, and bars it from every later proposal. -/
theorem clusterLoop_pairwise_disjoint {used : List Bool} {r : Nat}
    {rows : List (List Bool)} (hlen : ∀ row ∈ rows, row.length ≤ used.length) :
    (clusterLoop used r rows).Pairwise (fun p q => ∀ x, x ∈ p → x ∉ q) := by
  induction rows generalizing used r with
  | nil => simp [clusterLoop]
  | cons row rest ih =>
    rw [clusterLoop]
    have hrest : ∀ row' ∈ rest, row'.length ≤ used.length :=
      fun row' hr => hlen row' (List.mem_cons_of_mem row hr)
    split
    · exact ih hrest
    · have hrest2 : ∀ row' ∈ rest, row'.length ≤ (scanRow used 0 row).2.length := by
        intro row' hr
        rw [scanRow_length]
        exact hrest row' hr
      split
      · exact ih hrest2
      · refine List.pairwise_cons.mpr ⟨?_, ih hrest2⟩
        intro q hq x hxp hxq
        have hxlt : x < used.length := by
          have := scanRow_mem_lt hxp
          have := hlen row (List.mem_cons_self row rest)
          omega
        have hused : (scanRow used 0 row).2.getD x false = true :=
          scanRow_mem_used_after hxp hxlt
        have hfree : (scanRow used 0 row).2.getD x false = false :=
          clusterLoop_mem_not_used hq hxq
        rw [hused] at hfree
        exact absurd hfree (by simp)

/-- **C1.** For every square binary (thresholded) affinity matrix, every
proposal emitted by one clustering run is a non-empty duplicate-free list of
face indices, and the proposals are pairwise disjoint: no face index appears in
two distinct proposals. -/
theorem C1_proposals_nonempty_disjoint (adj : List (List Bool))
    (hsq : ∀ row ∈ adj, row.length = adj.length) :
    (∀ p ∈ clusterProposals adj, p ≠ [] ∧ p.Nodup) ∧
    (clusterProposals adj).Pairwise (fun p q => ∀ x, x ∈ p → x ∉ q) := by
  constructor
  · intro p hp
    exact ⟨clusterLoop_ne_nil hp, clusterLoop_nodup hp⟩
  · refine clusterLoop_pairwise_disjoint ?_
    intro row hr
    rw [List.length_replicate]
    exact Nat.le_of_eq (hsq row hr)

/-- Witness for C1 on the concrete 2×2 matrix with true off-diagonal entries. -/
theorem C1_witness :
    (∀ p ∈ clusterProposals [[false, true], [true, false]], p ≠ [] ∧ p.Nodup) ∧
    (clusterProposals [[false, true], [true, false]]).Pairwise
      (fun p q => ∀ x, x ∈ p → x ∉ q) :=
  C1_proposals_nonempty_disjoint [[false, true], [true, false]] (by decide)

/-- **C5.** On the 3×3 thresholded matrix whose only true entries are (0,1) and
(1,0), the clustering run produces exactly the single proposal `{1}`, and faces
0 and 2 belong to no proposal. -/
theorem C5_worked_example :
    clusterProposals [[false, true, false], [true, false, false], [false, false, false]]
      = [[1]] ∧
    ∀ p ∈ clusterProposals [[false, true, false], [true, false, false],
        [false, false, false]], 0 ∉ p ∧ 2 ∉ p := by
  decide

/-- Skipping every row of an all-false matrix. -/
theorem clusterLoop_all_false (m : Nat) :
    ∀ (k : Nat) (used : List Bool) (r : Nat),
      clusterLoop used r (List.replicate k (List.replicate m false)) = [] := by
  intro k
  induction k with
  | zero => intro used r; rfl
  | succ k ih =>
    intro used r
    rw [List.replicate_succ, clusterLoop]
    have hall : (List.replicate m false).all (fun b => !b) = true := by
      simp [List.all_eq_true, List.mem_replicate]
    rw [hall, Bool.or_true, if_pos rfl]
    exact ih used (r + 1)

/-- **C6.** For every N, clustering the all-false N×N thresholded matrix
produces zero proposals, and the assembled response then contains zero
features. -/
theorem C6_zero_matrix (n : Nat) (mesh : Mesh) (faceLogits : List (List ℚ))
    (bottomLogits : List Bool) (randDims : Nat → Vec3) (analysisId : String)
    (totalFaces : Nat) :
    clusterProposals (List.replicate n (List.replicate n false)) = [] ∧
    (buildResult analysisId
      (assembleFeatures mesh faceLogits bottomLogits randDims
        (clusterProposals (List.replicate n (List.replicate n false))))
      totalFaces).features = [] := by
  have hcl : clusterProposals (List.replicate n (List.replicate n false)) = [] :=
    clusterLoop_all_false n n _ 0
  refine ⟨hcl, ?_⟩
  rw [hcl]
  rfl

/-! ### The affinity matrix is symmetric with a false diagonal -/

/-- Reading an in-range entry of a mapped range list. -/
theorem getD_map_range {α : Type} (f : Nat → α) {n i : Nat} (h : i < n) (d : α) :
    ((List.range n).map f).getD i d = f i := by
  have hlen : i < ((List.range n).map f).length := by simpa using h
  rw [List.getD_eq_getElem _ _ hlen, List.getElem_map, List.getElem_range]

/-- The assembled instance matrix is symmetric in its two indices. -/
theorem instMatrix_symm (pairLogit : Nat → Nat → ℚ) (a b : Nat) :
    instMatrix pairLogit a b = instMatrix pairLogit b a := by
  unfold instMatrix
  rcases Nat.lt_trichotomy a b with hab | hab | hab
  · rw [if_pos hab, if_neg (Nat.lt_asymm hab), if_pos hab]
  · subst hab; rfl
  · rw [if_neg (Nat.lt_asymm hab), if_pos hab, if_pos hab]

/-- **C7.** For every face count N and every pairwise-logit assignment, the
assembled instance-affinity matrix is symmetric, and after the
sigmoid-and-0.5 binarization every diagonal entry of the N×N adjacency matrix
is false. -/
theorem C7_affinity_symmetric_diagonal_false (pairLogit : Nat → Nat → ℚ)
    (n i j : Nat) (hi : i < n) (hj : j < n) :
    instMatrix pairLogit i j = instMatrix pairLogit j i ∧
    ((adjacencyMatrix pairLogit n).getD i []).getD j false
      = ((adjacencyMatrix pairLogit n).getD j []).getD i false ∧
    ((adjacencyMatrix pairLogit n).getD i []).getD i false = false := by
  have hrow : ∀ a b : Nat, a < n → b < n →
      ((adjacencyMatrix pairLogit n).getD a []).getD b false = threshAdj pairLogit a b := by
    intro a b ha hb
    rw [adjacencyMatrix, getD_map_range _ ha, getD_map_range _ hb]
  refine ⟨instMatrix_symm pairLogit i j, ?_, ?_⟩
  · rw [hrow i j hi hj, hrow j i hj hi, threshAdj, threshAdj, instMatrix_symm]
  · rw [hrow i i hi hi, threshAdj]
    have : instMatrix pairLogit i i = 0 := by
      unfold instMatrix
      rw [if_neg (Nat.lt_irrefl i), if_neg (Nat.lt_irrefl i)]
    rw [this]
    rfl

/-- Witness for C7 at a concrete logit assignment on a 2×2 matrix. -/
theorem C7_witness :
    instMatrix (fun _ _ => (1 : ℚ)) 0 1 = instMatrix (fun _ _ => (1 : ℚ)) 1 0 ∧
    ((adjacencyMatrix (fun _ _ => (1 : ℚ)) 2).getD 0 []).getD 1 false
      = ((adjacencyMatrix (fun _ _ => (1 : ℚ)) 2).getD 1 []).getD 0 false ∧
    ((adjacencyMatrix (fun _ _ => (1 : ℚ)) 2).getD 0 []).getD 0 false = false :=
  C7_affinity_symmetric_diagonal_false (fun _ _ => (1 : ℚ)) 2 0 1 (by decide) (by decide)

/-! ### Characterisation of the features the assembler emits -/

/-- A `getD` read is either the default or a member of the list. -/
theorem getD_mem_cons {α : Type} (l : List α) (i : Nat) (d : α) : l.getD i d ∈ d :: l := by
  rcases Nat.lt_or_ge i l.length with h | h
  · rw [List.getD_eq_getElem l d h]
    exact List.mem_cons_of_mem d (List.getElem_mem h)
  · rw [List.getD_eq_default l d h]
    exact List.mem_cons_self d l

/-- Unfolding of `processProposal` on an emitted feature: the feature's fields
are exactly the expressions `handler` lines 580-624 compute from the proposal. -/
theorem processProposal_some_spec {mesh : Mesh} {faceLogits : List (List ℚ)}
    {bottomLogits : List Bool} {dims : Vec3} {count : Nat} {inst : List Nat} {f : Feature}
    (h : processProposal mesh faceLogits bottomLogits dims count inst = some f) :
    f.faces = inst ∧
    argmax (sumLogitsFor faceLogits inst) ≠ 24 ∧
    f.type = feat_names.getD (argmax (sumLogitsFor faceLogits inst)) "" ∧
    f.confidence = listMax (sumLogitsFor faceLogits inst) / (inst.length : ℚ) ∧
    f.dimensions.width = dims.1 ∧
    f.dimensions.diameter = (if containsHole f.type then some dims.1 else none) ∧
    f.machining_params = generate_machining_params f.type dims.1 ∧
    inst ≠ [] ∧
    f.position = faceCentroid mesh (inst.headD 0) ∧
    f.bottoms = inst.filter (fun k => bottomLogits.getD k false) := by
  simp only [processProposal] at h
  by_cases h24 : argmax (sumLogitsFor faceLogits inst) = 24
  · rw [if_pos h24] at h
    exact absurd h (by simp)
  · rw [if_neg h24] at h
    split at h
    · exact absurd h (by simp)
    · split at h
      · split at h
        · split at h
          · have hf := Option.some.inj h
            subst hf
            exact ⟨rfl, h24, rfl, rfl, rfl, rfl, rfl, by simp, rfl, rfl⟩
          · exact absurd h (by simp)
        · exact absurd h (by simp)
      · exact absurd h (by simp)

/-- Every feature in the assembled list comes from some proposal of the input
list via `processProposal`. -/
theorem mem_assembleLoop_spec {mesh : Mesh} {faceLogits : List (List ℚ)}
    {bottomLogits : List Bool} {randDims : Nat → Vec3} {props : List (List Nat)}
    {count : Nat} {f : Feature}
    (h : f ∈ assembleLoop mesh faceLogits bottomLogits randDims props count) :
    ∃ inst k, inst ∈ props ∧
      processProposal mesh faceLogits bottomLogits (randDims k) k inst = some f := by
  induction props generalizing count with
  | nil => simp [assembleLoop] at h
  | cons inst rest ih =>
    rcases hp : processProposal mesh faceLogits bottomLogits (randDims count) count inst
      with _ | g
    · rw [assembleLoop] at h
      rw [hp] at h
      obtain ⟨i', k', hi', hp'⟩ := ih h
      exact ⟨i', k', List.mem_cons_of_mem _ hi', hp'⟩
    · rw [assembleLoop] at h
      rw [hp] at h
      rcases List.mem_cons.mp h with rfl | hmem
      · exact ⟨inst, count, List.mem_cons_self _ _, hp⟩
      · obtain ⟨i', k', hi', hp'⟩ := ih hmem
        exact ⟨i', k', List.mem_cons_of_mem _ hi', hp'⟩

/-! ### The first maximal entry equals the maximum -/

/-- Unfolding of `listMax` on a two-or-more element vector. -/
theorem listMax_cons_cons (x y : ℚ) (t : List ℚ) :
    listMax (x :: y :: t) = max x (listMax (y :: t)) := rfl

/-- Unfolding of `argmax` on a two-or-more element vector. -/
theorem argmax_cons_cons (x y : ℚ) (t : List ℚ) :
    argmax (x :: y :: t) = if listMax (y :: t) ≤ x then 0 else argmax (y :: t) + 1 := rfl

/-- `np.argmax` indexes the maximum: reading a non-empty vector at its first
maximal index yields `np.max` of the vector. -/
theorem getD_argmax_eq_listMax : ∀ {l : List ℚ}, l ≠ [] → l.getD (argmax l) 0 = listMax l
  | [], h => absurd rfl h
  | x :: rest, _ => by
    cases rest with
    | nil => rfl
    | cons y t =>
      rw [argmax_cons_cons, listMax_cons_cons]
      split
      · rename_i hle
        show x = max x (listMax (y :: t))
        exact (max_eq_left hle).symm
      · rename_i hle
        show (y :: t).getD (argmax (y :: t)) 0 = max x (listMax (y :: t))
        rw [@getD_argmax_eq_listMax (y :: t) (by simp)]
        exact (max_eq_right (le_of_not_le hle)).symm

/-- Elementwise addition of equal-length vectors keeps the length. -/
theorem vecAdd_length (u v : List ℚ) : (vecAdd u v).length = min u.length v.length := by
  simp [vecAdd]

/-- Folding `vecAdd` over vectors of one common length keeps that length. -/
theorem foldl_vecAdd_length {n : Nat} : ∀ (rest : List (List ℚ)) (v : List ℚ),
    v.length = n → (∀ u ∈ rest, u.length = n) → (rest.foldl vecAdd v).length = n
  | [], _, hv, _ => hv
  | w :: t, v, hv, hall => by
    rw [List.foldl_cons]
    refine foldl_vecAdd_length t (vecAdd v w) ?_
      (fun u hu => hall u (List.mem_cons_of_mem _ hu))
    rw [vecAdd_length, hv, hall w (List.mem_cons_self _ _)]
    exact Nat.min_self n

/-- When every face-logit row has the canonical 25 classes, the summed logits
of a non-empty proposal form a 25-entry vector. -/
theorem sumLogitsFor_length {faceLogits : List (List ℚ)} {inst : List Nat}
    (hrows : ∀ row ∈ faceLogits, row.length = 25) (hne : inst ≠ []) :
    (sumLogitsFor faceLogits inst).length = 25 := by
  have hget : ∀ k : Nat, (faceLogits.getD k (List.replicate 25 0)).length = 25 := by
    intro k
    rcases List.mem_cons.mp (getD_mem_cons faceLogits k (List.replicate 25 0)) with hd | hm
    · rw [hd]; simp
    · exact hrows _ hm
  rcases inst with _ | ⟨i, rest⟩
  · exact absurd rfl hne
  · rw [sumLogitsFor, List.map_cons, vecSum]
    refine foldl_vecAdd_length _ _ (hget i) ?_
    intro u hu
    obtain ⟨k, -, rfl⟩ := List.mem_map.mp hu
    exact hget k

/-! ### The machining-parameter buckets on the canonical class list -/

/-- None of the 25 canonical class names (nor the out-of-range default `""`) is
the exact string `'hole'`, `'pocket'` or `'slot'`, so each lands in the DEFAULT
bucket. -/
theorem gmp_canonical_default : ∀ s ∈ ("" :: feat_names), ∀ d : ℚ,
    generate_machining_params s d = defaultMachining d := by
  intro s hs d
  fin_cases hs <;> rfl

/-! ### Claims about the assembled features -/

/-- **C2.** A proposal whose aggregated-logit argmax is the BACKGROUND class
(index 24, `'stock'`) never appears in the output feature list: no emitted
feature carries its face set. -/
theorem C2_background_never_emitted (mesh : Mesh) (faceLogits : List (List ℚ))
    (bottomLogits : List Bool) (randDims : Nat → Vec3) (props : List (List Nat))
    (inst : List Nat) (f : Feature)
    (_hmem : inst ∈ props)
    (hbg : argmax (sumLogitsFor faceLogits inst) = 24)
    (hf : f ∈ assembleFeatures mesh faceLogits bottomLogits randDims props) :
    f.faces ≠ inst := by
  intro hfaces
  obtain ⟨i', k', -, hp⟩ := mem_assembleLoop_spec hf
  obtain ⟨hfa, h24, -⟩ := processProposal_some_spec hp
  rw [← hfaces, hfa] at hbg
  exact h24 hbg

/-- **C3.** The confidence of every emitted feature is the summed logit of the
winning class — which is the maximum entry of the class-wise logit sum —
divided by the proposal size, computed on raw logits. -/
theorem C3_confidence_is_winning_logit_mean (mesh : Mesh) (faceLogits : List (List ℚ))
    (bottomLogits : List Bool) (randDims : Nat → Vec3) (props : List (List Nat))
    (f : Feature)
    (hrows : ∀ row ∈ faceLogits, row.length = 25)
    (hf : f ∈ assembleFeatures mesh faceLogits bottomLogits randDims props) :
    f.confidence = listMax (sumLogitsFor faceLogits f.faces) / (f.faces.length : ℚ) ∧
    f.confidence = (sumLogitsFor faceLogits f.faces).getD
        (argmax (sumLogitsFor faceLogits f.faces)) 0 / (f.faces.length : ℚ) := by
  obtain ⟨inst, k, -, hp⟩ := mem_assembleLoop_spec hf
  obtain ⟨hfa, -, -, hconf, -, -, -, hne, -, -⟩ := processProposal_some_spec hp
  rw [← hfa] at hconf hne
  have hlen : (sumLogitsFor faceLogits f.faces).length = 25 := sumLogitsFor_length hrows hne
  have hsne : sumLogitsFor faceLogits f.faces ≠ [] := by
    intro hnil
    rw [hnil] at hlen
    simp at hlen
  refine ⟨hconf, ?_⟩
  rw [getD_argmax_eq_listMax hsne]
  exact hconf

/-- **C4 (amended).** The position of every emitted feature is the centroid of
the FIRST member face of the proposal (mean of that face's first three
vertices), not the mean of all member faces' centroids. -/
theorem C4_amended_position_from_first_face (mesh : Mesh) (faceLogits : List (List ℚ))
    (bottomLogits : List Bool) (randDims : Nat → Vec3) (props : List (List Nat))
    (f : Feature)
    (hf : f ∈ assembleFeatures mesh faceLogits bottomLogits randDims props) :
    f.faces ≠ [] ∧ f.position = faceCentroid mesh (f.faces.headD 0) := by
  obtain ⟨inst, k, -, hp⟩ := mem_assembleLoop_spec hf
  obtain ⟨hfa, -, -, -, -, -, -, hne, hpos, -⟩ := processProposal_some_spec hp
  rw [← hfa] at hne hpos
  exact ⟨hne, hpos⟩

/-- Modelled from the spec: "Position = centroid of all member faces'
centroids" — the mean, over every face id of the proposal, of that face's
centroid.  Stated only to be compared with the position the code computes. -/
def specMeanOfCentroids (mesh : Mesh) (inst : List Nat) : Vec3 :=
  let cs := inst.map (faceCentroid mesh)
  ((cs.map (fun c => c.1)).sum / (cs.length : ℚ),
   (cs.map (fun c => c.2.1)).sum / (cs.length : ℚ),
   (cs.map (fun c => c.2.2)).sum / (cs.length : ℚ))

/-- Dummy feature used only as a `headD` default when naming the head of a
concrete run's output. -/
def junkFeature : Feature :=
  { id := ""
    type := ""
    confidence := 0
    position := (0, 0, 0)
    dimensions := { diameter := none, width := 0, height := 0, depth := 0 }
    normal := (0, 0, 0)
    machining_params := defaultMachining 0
    model_prediction := false
    faces := []
    bottoms := [] }

/-- Concrete three-face mesh: faces 1 and 2 have centroids (0,0,0) and (3,0,0). -/
def meshC4 : Mesh :=
  { vertices := [(0, 0, 0), (0, 0, 0), (0, 0, 0), (0, 0, 0), (0, 0, 0), (0, 0, 0),
                 (3, 0, 0), (3, 0, 0), (3, 0, 0)]
    faces := [[0, 1, 2], [3, 4, 5], [6, 7, 8]] }

/-- Concrete face logits: every face's argmax class is 0 (`'chamfer'`). -/
def flC4 : List (List ℚ) := List.replicate 3 (1 :: List.replicate 24 0)

/-- Concrete thresholded affinity matrix grouping faces 1 and 2 from row 0. -/
def adjC4 : List (List Bool) :=
  [[false, true, true], [true, false, false], [true, false, false]]

/-- Head feature of the concrete C4 run. -/
def fC4 : Feature :=
  (assembleFeatures meshC4 flC4 [false, false, false] (fun _ => (1, 1, 1))
    (clusterProposals adjC4)).headD junkFeature

set_option maxRecDepth 100000 in
/-- **C4 counterexample.** On the concrete run, the single emitted feature has
member faces `[1, 2]` and position `(0,0,0)` — the centroid of face 1 alone —
while the centroid of all member faces' centroids is `(3/2, 0, 0)`: the claim's
"mean of all member centroids" is not what the code computes. -/
theorem C4_counterexample :
    (assembleFeatures meshC4 flC4 [false, false, false] (fun _ => (1, 1, 1))
        (clusterProposals adjC4)).map (fun f => (f.faces, f.position))
      = [([1, 2], ((0 : ℚ), (0 : ℚ), (0 : ℚ)))] ∧
    specMeanOfCentroids meshC4 [1, 2] = ((3 / 2 : ℚ), 0, 0) := by
  with_unfolding_all decide

set_option maxRecDepth 100000 in
/-- Witness for the amended C4 on the concrete run. -/
theorem C4_witness :
    fC4 ∈ assembleFeatures meshC4 flC4 [false, false, false] (fun _ => (1, 1, 1))
      (clusterProposals adjC4) ∧
    (fC4.faces ≠ [] ∧ fC4.position = faceCentroid meshC4 (fC4.faces.headD 0)) :=
  ⟨by with_unfolding_all decide, C4_amended_position_from_first_face meshC4 flC4
    [false, false, false] (fun _ => (1, 1, 1)) (clusterProposals adjC4) fC4
    (by with_unfolding_all decide)⟩

/-- **C9.** Every name of the canonical class list falls in the DEFAULT
machining bucket (`end_mill`, diameter 0.5×dimension, speed 1000, feed 0.1):
the HOLE/POCKET/SLOT policies require the exact names `'hole'`, `'pocket'`,
`'slot'`, none of which is canonical — accordingly no emitted feature carries
`plunge_rate`, `step_over` or `step_down`. -/
theorem C9_default_machining_bucket (name : String) (d : ℚ) (mesh : Mesh)
    (faceLogits : List (List ℚ)) (bottomLogits : List Bool) (randDims : Nat → Vec3)
    (props : List (List Nat)) (f : Feature)
    (hname : name ∈ feat_names)
    (hf : f ∈ assembleFeatures mesh faceLogits bottomLogits randDims props) :
    generate_machining_params name d = defaultMachining d ∧
    f.machining_params.plunge_rate = none ∧
    f.machining_params.step_over = none ∧
    f.machining_params.step_down = none := by
  have h1 := gmp_canonical_default name (List.mem_cons_of_mem _ hname) d
  obtain ⟨inst, k, -, hp⟩ := mem_assembleLoop_spec hf
  obtain ⟨-, -, htype, -, -, -, hmach, -, -, -⟩ := processProposal_some_spec hp
  have hmem : f.type ∈ "" :: feat_names := by
    rw [htype]
    exact getD_mem_cons _ _ _
  have h2 := gmp_canonical_default f.type hmem (randDims k).1
  rw [hmach, h2]
  exact ⟨h1, rfl, rfl, rfl⟩

/-- **C10.** In every emitted feature, `dimensions.diameter` is non-null
exactly when the type name contains the substring `'hole'` (among the
canonical names exactly `'through_hole'` and `'blind_hole'`), and a non-null
diameter equals the width dimension. -/
theorem C10_diameter_iff_hole_substring (mesh : Mesh) (faceLogits : List (List ℚ))
    (bottomLogits : List Bool) (randDims : Nat → Vec3) (props : List (List Nat))
    (f : Feature)
    (hf : f ∈ assembleFeatures mesh faceLogits bottomLogits randDims props) :
    (f.dimensions.diameter ≠ none ↔ containsHole f.type = true) ∧
    (f.dimensions.diameter = none ∨ f.dimensions.diameter = some f.dimensions.width) ∧
    feat_names.filter (fun s => containsHole s) = ["through_hole", "blind_hole"] := by
  obtain ⟨inst, k, -, hp⟩ := mem_assembleLoop_spec hf
  obtain ⟨-, -, -, -, hw, hdia, -, -, -, -⟩ := processProposal_some_spec hp
  refine ⟨?_, ?_, by decide⟩
  · rw [hdia]
    by_cases hc : containsHole f.type
    · simp [hc]
    · simp [hc]
  · rw [hdia]
    by_cases hc : containsHole f.type
    · right
      rw [if_pos hc, hw]
    · left
      rw [if_neg hc]

/-! ### Concrete runs used by the witnesses -/

/-- One-face mesh for witness runs. -/
def meshW : Mesh := { vertices := [(0, 0, 0), (0, 0, 0), (0, 0, 0)], faces := [[0, 1, 2]] }

/-- Face logits whose argmax class is 0 (`'chamfer'`). -/
def flW : List (List ℚ) := [1 :: List.replicate 24 0]

/-- Head feature of the one-face witness run. -/
def fW : Feature :=
  (assembleFeatures meshW flW [true] (fun _ => (2, 3, 4)) [[0]]).headD junkFeature

set_option maxRecDepth 100000 in
/-- Witness for C3 on the concrete one-face run. -/
theorem C3_witness :
    (∀ row ∈ flW, row.length = 25) ∧
    fW ∈ assembleFeatures meshW flW [true] (fun _ => (2, 3, 4)) [[0]] ∧
    (fW.confidence = listMax (sumLogitsFor flW fW.faces) / (fW.faces.length : ℚ) ∧
     fW.confidence = (sumLogitsFor flW fW.faces).getD
        (argmax (sumLogitsFor flW fW.faces)) 0 / (fW.faces.length : ℚ)) :=
  ⟨by decide, by with_unfolding_all decide, C3_confidence_is_winning_logit_mean meshW flW
    [true] (fun _ => (2, 3, 4)) [[0]] fW (by decide) (by with_unfolding_all decide)⟩

set_option maxRecDepth 100000 in
/-- Witness for C9 on `'chamfer'` and the concrete one-face run. -/
theorem C9_witness :
    "chamfer" ∈ feat_names ∧
    fW ∈ assembleFeatures meshW flW [true] (fun _ => (2, 3, 4)) [[0]] ∧
    (generate_machining_params "chamfer" 2 = defaultMachining 2 ∧
     fW.machining_params.plunge_rate = none ∧
     fW.machining_params.step_over = none ∧
     fW.machining_params.step_down = none) :=
  ⟨by decide, by with_unfolding_all decide, C9_default_machining_bucket "chamfer" 2 meshW
    flW [true] (fun _ => (2, 3, 4)) [[0]] fW (by decide) (by with_unfolding_all decide)⟩

set_option maxRecDepth 100000 in
/-- Witness for C10 on the concrete one-face run. -/
theorem C10_witness :
    fW ∈ assembleFeatures meshW flW [true] (fun _ => (2, 3, 4)) [[0]] ∧
    ((fW.dimensions.diameter ≠ none ↔ containsHole fW.type = true) ∧
     (fW.dimensions.diameter = none ∨ fW.dimensions.diameter = some fW.dimensions.width) ∧
     feat_names.filter (fun s => containsHole s) = ["through_hole", "blind_hole"]) :=
  ⟨by with_unfolding_all decide, C10_diameter_iff_hole_substring meshW flW [true]
    (fun _ => (2, 3, 4)) [[0]] fW (by with_unfolding_all decide)⟩

/-- Two-face mesh for the C2 witness run. -/
def meshW2 : Mesh :=
  { vertices := [(0, 0, 0), (0, 0, 0), (0, 0, 0), (1, 1, 1), (1, 1, 1), (1, 1, 1)]
    faces := [[0, 1, 2], [3, 4, 5]] }

/-- Face 0's argmax class is 24 (`'stock'`), face 1's is 0 (`'chamfer'`). -/
def flW2 : List (List ℚ) := [List.replicate 24 0 ++ [1], 1 :: List.replicate 24 0]

/-- Head feature of the two-face witness run (from proposal `[1]`). -/
def fW2 : Feature :=
  (assembleFeatures meshW2 flW2 [false, false] (fun _ => (2, 3, 4)) [[0], [1]]).headD
    junkFeature

set_option maxRecDepth 100000 in
/-- Witness for C2: the background proposal `[0]` is in the proposal list, its
argmax is 24, and the emitted feature does not carry it. -/
theorem C2_witness :
    [0] ∈ [[0], [1]] ∧
    argmax (sumLogitsFor flW2 [0]) = 24 ∧
    fW2 ∈ assembleFeatures meshW2 flW2 [false, false] (fun _ => (2, 3, 4)) [[0], [1]] ∧
    fW2.faces ≠ [0] :=
  ⟨by decide, by with_unfolding_all decide, by with_unfolding_all decide,
    C2_background_never_emitted meshW2 flW2 [false, false] (fun _ => (2, 3, 4)) [[0], [1]]
      [0] fW2 (by decide) (by with_unfolding_all decide) (by with_unfolding_all decide)⟩

/-! ### The error envelope -/

/-- **C8.** Whenever any step of the pipeline raises, the handler returns the
single structured failure response `{'error': str(e), 'status': 'error'}` with
status 500, whose body has exactly the keys `error` and `status` — in
particular no `features` field, so no partial feature list is ever returned. -/
theorem C8_error_envelope {α β γ δ : Type}
    (parseRequest : Except String α) (loadModel : α → Except String β)
    (extractGeometry : β → Except String γ) (encodeInfer : γ → Except String δ)
    (clusterAssemble : δ → Except String AnalysisResult) (e : String)
    (h : runPipeline parseRequest loadModel extractGeometry encodeInfer clusterAssemble
        = Except.error e) :
    handlerModel (runPipeline parseRequest loadModel extractGeometry encodeInfer
        clusterAssemble)
      = { statusCode := 500, headers := corsHeaders, body := errorBody e } ∧
    jsonKeys (handlerModel (runPipeline parseRequest loadModel extractGeometry encodeInfer
        clusterAssemble)).body = ["error", "status"] ∧
    "features" ∉ jsonKeys (handlerModel (runPipeline parseRequest loadModel extractGeometry
        encodeInfer clusterAssemble)).body := by
  rw [h]
  refine ⟨rfl, rfl, ?_⟩
  show "features" ∉ ["error", "status"]
  decide

/-- Witness for C8: a pipeline whose first step raises. -/
theorem C8_witness :
    runPipeline (Except.error "boom" : Except String Unit)
      (fun _ => (Except.ok () : Except String Unit))
      (fun _ => (Except.ok () : Except String Unit))
      (fun _ => (Except.ok () : Except String Unit))
      (fun _ => (Except.error "unreached" : Except String AnalysisResult))
      = Except.error "boom" ∧
    (handlerModel (runPipeline (Except.error "boom" : Except String Unit)
        (fun _ => (Except.ok () : Except String Unit))
        (fun _ => (Except.ok () : Except String Unit))
        (fun _ => (Except.ok () : Except String Unit))
        (fun _ => (Except.error "unreached" : Except String AnalysisResult)))
      = { statusCode := 500, headers := corsHeaders, body := errorBody "boom" } ∧
     jsonKeys (handlerModel (runPipeline (Except.error "boom" : Except String Unit)
        (fun _ => (Except.ok () : Except String Unit))
        (fun _ => (Except.ok () : Except String Unit))
        (fun _ => (Except.ok () : Except String Unit))
        (fun _ => (Except.error "unreached" : Except String AnalysisResult)))).body
      = ["error", "status"] ∧
     "features" ∉ jsonKeys (handlerModel (runPipeline
        (Except.error "boom" : Except String Unit)
        (fun _ => (Except.ok () : Except String Unit))
        (fun _ => (Except.ok () : Except String Unit))
        (fun _ => (Except.ok () : Except String Unit))
        (fun _ => (Except.error "unreached" : Except String AnalysisResult)))).body) :=
  ⟨rfl, C8_error_envelope _ _ _ _ _ "boom" rfl⟩

end AAGNet
